import Mathlib

/-!
# Verification of the rsgen token-stream model and Java/Swift targets

A shallow embedding of the `rsgen` code-generation toolkit: the `Tokens`
container and its operations (`src/tokens.rs`), the Java target's import
collation, inline type formatting and string quoting (`src/java/mod.rs`),
and the Swift target's string quoting (`src/swift/mod.rs`).

Rust ownership wrappers (`Con::Owned`/`Con::Borrowed`/`Con::Rc` around
sub-trees, and the clone-on-write `Cons` text type) carry no semantic
content in a pure model and are collapsed: a wrapped sub-tree is stored
directly as its element list, and text is a plain `String`.  The element
wrappers `Element::Rc` and `Element::Borrowed` are kept as constructors
because `WalkCustom::next` pattern-matches on them.

The files `element.rs`, `formatter.rs` and `io.rs` of the repository are
not available; the `Element` variant set and the whitespace-rendering
state machine are therefore modelled from the specification (sections 3
and 4.2), as marked on each such definition.
-/

set_option linter.unusedVariables false

namespace Rsgen

/-- Modelled from the spec: the `Element` variant tree of the missing
`element.rs` (spec section 3), restricted to the variants the present
sources use.  `Push`/`Nested`/`Append` store the wrapped sub-tree's
element list directly (the `Con` ownership wrapper is collapsed);
`rcE`/`borrowedE` are the shared/borrowed single-element wrappers that
`WalkCustom::next` in `tokens.rs` traverses.  The `OpenQuote`/`CloseQuote`
variants of the quoting front end are not needed by any claim and are
omitted. -/
inductive Element (C : Type) : Type where
  | lit (text : String)
  | custom (item : C)
  | registered (item : C)
  | appendT (elements : List (Element C))
  | push (elements : List (Element C))
  | nested (elements : List (Element C))
  | spacing
  | pushSpacing
  | lineSpacing
  | none
  | rcE (element : Element C)
  | borrowedE (element : Element C)

/-- The `Tokens` container of `tokens.rs`: an ordered sequence of
elements. -/
structure Tokens (C : Type) : Type where
  elements : List (Element C)

/-- `Element::None` test, standing in for the `element != Element::None`
comparison in `Tokens::append` and `Tokens::join`. -/
def Element.isNoneEl : Element C → Bool
  | Element.none => true
  | _ => false

namespace Tokens

/-- `Tokens::new`. -/
def new : Tokens C := ⟨[]⟩

/-- `Tokens::append` (`tokens.rs` lines 137-146): the caller-side `Into`
conversion is applied by the caller; a `None` element is discarded. -/
def append (t : Tokens C) (element : Element C) : Tokens C :=
  if element.isNoneEl then t else ⟨t.elements ++ [element]⟩

/-- `Tokens::push` (`tokens.rs` lines 77-82). -/
def push (t : Tokens C) (tokens : Tokens C) : Tokens C :=
  ⟨t.elements ++ [Element.push tokens.elements]⟩

/-- `Tokens::nested` (`tokens.rs` lines 41-46). -/
def nested (t : Tokens C) (tokens : Tokens C) : Tokens C :=
  ⟨t.elements ++ [Element.nested tokens.elements]⟩

/-- `Tokens::push_ref`: pushes a borrowed tree; ownership collapses. -/
def push_ref (t : Tokens C) (tokens : Tokens C) : Tokens C :=
  ⟨t.elements ++ [Element.push tokens.elements]⟩

/-- `Tokens::extend` (`tokens.rs` lines 170-175): bulk append with no
filtering. -/
def extend (t : Tokens C) (it : List (Element C)) : Tokens C :=
  ⟨t.elements ++ it⟩

/-- `Tokens::insert` (`tokens.rs` lines 129-134): positional insert with
no filtering. -/
def insertAt (t : Tokens C) (pos : Nat) (element : Element C) : Tokens C :=
  ⟨t.elements.insertIdx pos element⟩

/-- `Tokens::register` (`tokens.rs` lines 185-188). -/
def register (t : Tokens C) (custom : C) : Tokens C :=
  ⟨t.elements ++ [Element.registered custom]⟩

/-- `Tokens::is_empty` (`tokens.rs` lines 191-193). -/
def is_empty (t : Tokens C) : Bool :=
  t.elements.isEmpty

/-- `Tokens::push_into`: builds a fresh sub-tree with the closure and
pushes it. -/
def push_into (t : Tokens C) (builder : Tokens C → Tokens C) : Tokens C :=
  t.push (builder new)

/-- `Tokens::nested_into`. -/
def nested_into (t : Tokens C) (builder : Tokens C → Tokens C) : Tokens C :=
  t.nested (builder new)

/-- `Tokens::try_push_into` (`tokens.rs` lines 97-105).  The fallible
closure is modelled as a state transformer returning the built sub-tree
together with an optional error; the result pairs the final parent with
the propagated error. -/
def try_push_into (t : Tokens C) (builder : Tokens C → Tokens C × Option E) :
    Tokens C × Option E :=
  match builder new with
  | (_, some e) => (t, some e)
  | (sub, Option.none) => (t.push sub, Option.none)

/-- `Tokens::try_nested_into` (`tokens.rs` lines 61-69). -/
def try_nested_into (t : Tokens C) (builder : Tokens C → Tokens C × Option E) :
    Tokens C × Option E :=
  match builder new with
  | (_, some e) => (t, some e)
  | (sub, Option.none) => (t.nested sub, Option.none)

/-- The separator-interleaving loop of `Tokens::join`: `while let
Some(next) = it.next() { out.push(element.clone()); out.push(next); }`. -/
def joinTail (element : Element C) : List (Element C) → List (Element C)
  | [] => []
  | next :: rest => element :: next :: joinTail element rest

/-- `Tokens::join` (`tokens.rs` lines 255-281): filter out `None`
elements, then interleave a clone of the separator between consecutive
survivors. -/
def join (t : Tokens C) (element : Element C) : Tokens C :=
  match t.elements.filter (fun e => !e.isNoneEl) with
  | [] => ⟨[]⟩
  | first :: rest => ⟨first :: joinTail element rest⟩

/-- `Tokens::join_spacing`. -/
def join_spacing (t : Tokens C) : Tokens C :=
  t.join Element.spacing

/-- `Tokens::join_line_spacing`. -/
def join_line_spacing (t : Tokens C) : Tokens C :=
  t.join Element.lineSpacing

end Tokens

/-- Helper for the termination of `walkQueue`: the summed `sizeOf` of the
members of a list is below the `sizeOf` of the list itself. -/
theorem sum_map_sizeOf_lt {α : Type} [SizeOf α] (l : List α) :
    (l.map sizeOf).sum < sizeOf l := by
  induction l with
  | nil => simp
  | cons a rest ih => simp only [List.map_cons, List.sum_cons, List.cons.sizeOf_spec]; omega

/-- `WalkCustom::next` (`tokens.rs` lines 391-413), run to exhaustion: a
queue of elements is consumed from the front; `Rc`/`Borrowed` wrappers
push their inner element to the back, `Push`/`Nested`/`Append` extend the
back with their sub-tree's elements, and `Custom`/`Registered` items are
yielded. -/
def walkQueue : List (Element C) → List C
  | [] => []
  | e :: q =>
    match e with
    | Element.rcE inner => walkQueue (q ++ [inner])
    | Element.borrowedE inner => walkQueue (q ++ [inner])
    | Element.push ts => walkQueue (q ++ ts)
    | Element.nested ts => walkQueue (q ++ ts)
    | Element.appendT ts => walkQueue (q ++ ts)
    | Element.custom c => c :: walkQueue q
    | Element.registered c => c :: walkQueue q
    | Element.lit _ => walkQueue q
    | Element.spacing => walkQueue q
    | Element.pushSpacing => walkQueue q
    | Element.lineSpacing => walkQueue q
    | Element.none => walkQueue q
termination_by q => ((q.map sizeOf).sum, q.length)
decreasing_by
  all_goals
    simp only [Prod.lex_iff, List.map_append, List.sum_append, List.map_cons, List.sum_cons,
      List.map_nil, List.sum_nil, List.length_cons, List.length_append, List.length_nil,
      Element.lit.sizeOf_spec, Element.custom.sizeOf_spec, Element.registered.sizeOf_spec,
      Element.appendT.sizeOf_spec, Element.push.sizeOf_spec, Element.nested.sizeOf_spec,
      Element.spacing.sizeOf_spec, Element.pushSpacing.sizeOf_spec,
      Element.lineSpacing.sizeOf_spec, Element.none.sizeOf_spec, Element.rcE.sizeOf_spec,
      Element.borrowedE.sizeOf_spec]
  all_goals first
    | (have hsz := sum_map_sizeOf_lt (α := Element C) ts; omega)
    | omega

/-- `Tokens::walk_custom` (`tokens.rs` lines 178-182): seed the queue with
the tree's own elements. -/
def Tokens.walk_custom (t : Tokens C) : List C :=
  walkQueue t.elements

mutual

/-- The customs structurally reachable from one element: the reference
sequence `walk_custom` is compared against. -/
def ecustoms : Element C → List C
  | Element.custom c => [c]
  | Element.registered c => [c]
  | Element.rcE inner => ecustoms inner
  | Element.borrowedE inner => ecustoms inner
  | Element.push ts => lcustoms ts
  | Element.nested ts => lcustoms ts
  | Element.appendT ts => lcustoms ts
  | Element.lit _ => []
  | Element.spacing => []
  | Element.pushSpacing => []
  | Element.lineSpacing => []
  | Element.none => []

/-- The customs structurally reachable from a list of elements, in
depth-first order. -/
def lcustoms : List (Element C) → List C
  | [] => []
  | e :: rest => ecustoms e ++ lcustoms rest

end

/-- Modelled from the spec: the render-pass cursor state of the missing
`formatter.rs` (spec section 4.2) — current indentation depth, the three
pending-whitespace flags, and whether any text has been emitted yet
(pending line breaks queued before the first text are discarded, so a
file never starts with a blank line). -/
structure FmtState : Type where
  out : String
  indent : Nat
  spacePending : Bool
  linePending : Bool
  blankPending : Bool
  initialized : Bool

/-- Modelled from the spec: indentation whitespace, two spaces per level
(spec section 8, concrete scenario with a "one-level indent unit of two
spaces"). -/
def indentStr (n : Nat) : String :=
  String.join (List.replicate n "  ")

/-- Modelled from the spec: emitting one piece of literal text (spec
section 4.2, step 1) — pending blank-line/fresh-line flags produce the
newline(s) plus current indentation, otherwise a pending space produces
one space; all pending flags are then cleared and the text appended. -/
def FmtState.emit (s : FmtState) (text : String) : FmtState :=
  if text = "" then s
  else if s.initialized = false then
    { s with out := s.out ++ text, initialized := true,
             spacePending := false, linePending := false, blankPending := false }
  else
    let ws :=
      if s.blankPending then "\n\n" ++ indentStr s.indent
      else if s.linePending then "\n" ++ indentStr s.indent
      else if s.spacePending then " "
      else ""
    { s with out := s.out ++ ws ++ text,
             spacePending := false, linePending := false, blankPending := false }

mutual

/-- Modelled from the spec: rendering one element (spec section 4.2,
steps 1-7) — `Push` sets the pending-fresh-line flag before its sub-tree,
`Nested` renders its sub-tree with indentation and custom nesting level
raised by one and then restores the indentation, spacing directives only
set flags, and `Registered`/`None` contribute nothing.  The custom
formatter `fc` receives the current nesting level. -/
def renderEl (fc : C → Nat → String) : Element C → Nat → FmtState → FmtState
  | Element.lit text, _, s => s.emit text
  | Element.custom c, level, s => s.emit (fc c level)
  | Element.registered _, _, s => s
  | Element.appendT es, level, s => renderList fc es level s
  | Element.push es, level, s => renderList fc es level { s with linePending := true }
  | Element.nested es, level, s =>
      let s2 := renderList fc es (level + 1) { s with indent := s.indent + 1 }
      { s2 with indent := s.indent }
  | Element.spacing, _, s => { s with spacePending := true }
  | Element.pushSpacing, _, s => { s with linePending := true }
  | Element.lineSpacing, _, s => { s with blankPending := true }
  | Element.none, _, s => s
  | Element.rcE inner, level, s => renderEl fc inner level s
  | Element.borrowedE inner, level, s => renderEl fc inner level s

/-- Modelled from the spec: rendering a sequence of elements left to
right, threading the cursor state. -/
def renderList (fc : C → Nat → String) : List (Element C) → Nat → FmtState → FmtState
  | [], _, s => s
  | e :: rest, level, s => renderList fc rest level (renderEl fc e level s)

end

/-- The initial cursor state of a render pass. -/
def initFmt : FmtState :=
  ⟨"", 0, false, false, false, false⟩

/-- Modelled from the spec: `Tokens::to_string`-style rendering of a whole
tree into a string, with the target's custom formatter plugged in. -/
def Tokens.to_string_with (fc : C → Nat → String) (t : Tokens C) : String :=
  (renderList fc t.elements 0 initFmt).out

/-! ## The Java target (`src/java/mod.rs`) -/

/-- `static JAVA_LANG` (`java/mod.rs` line 31). -/
def JAVA_LANG : String := "java.lang"

/-- `static SEP` (`java/mod.rs` line 32). -/
def SEP : String := "."

/-- The `Java` custom-item type (`java/mod.rs` lines 112-129), with the
`Type` struct of a class inlined into the `classJ` constructor (its
fields in source order: package, name, nested path, generic arguments).
`Local` is spelled `local_` because `local` is reserved in Lean. -/
inductive Java : Type where
  | primitive (boxed : String) (primitive : String)
  | classJ (package : String) (name : String) (path : List String)
      (arguments : List Java)
  | local_ (name : String)
  | optional (value : Java) (field : Java)

/-- The `Extra` per-render state for Java (`java/mod.rs` lines 136-142):
the file's declared package and the name-to-package map of types already
imported (the `HashMap` is modelled as an association list keyed by
name; the import loop only inserts names that are absent, so no key is
ever shadowed). -/
structure Extra : Type where
  package : Option String
  imported : List (String × String)

/-- `SHORT` (`java/mod.rs`). -/
def SHORT : Java := Java.primitive "Short" "short"
/-- `INTEGER` (`java/mod.rs`). -/
def INTEGER : Java := Java.primitive "Integer" "int"
/-- `LONG` (`java/mod.rs`). -/
def LONG : Java := Java.primitive "Long" "long"
/-- `FLOAT` (`java/mod.rs`). -/
def FLOAT : Java := Java.primitive "Float" "float"
/-- `DOUBLE` (`java/mod.rs`). -/
def DOUBLE : Java := Java.primitive "Double" "double"
/-- `CHAR` (`java/mod.rs`). -/
def CHAR : Java := Java.primitive "Character" "char"
/-- `BOOLEAN` (`java/mod.rs`). -/
def BOOLEAN : Java := Java.primitive "Boolean" "boolean"
/-- `BYTE` (`java/mod.rs`). -/
def BYTE : Java := Java.primitive "Byte" "byte"
/-- `VOID` (`java/mod.rs`). -/
def VOID : Java := Java.primitive "Void" "void"

/-- `imported(package, name)` (`java/mod.rs` lines 513-520). -/
def imported (package name : String) : Java :=
  Java.classJ package name [] []

/-- The `.` separated nested-path suffix written by `Custom::format` for
a class (`java/mod.rs` lines 434-439). -/
def pathSuffix : List String → String
  | [] => ""
  | n :: rest => "." ++ n ++ pathSuffix rest

mutual

/-- `Custom::format` for `Java` (`java/mod.rs` lines 404-467), collected
into the string its `write_str` calls produce: a primitive writes its
boxed name above level 0 and its plain name at level 0; a class writes
`package.` unless the package is `java.lang`, or the class's name is
recorded as imported from that package, or the file's package equals it,
then the name, nested path, and `<`-bracketed generic arguments formatted
at `level + 1`; a local name writes itself; an optional writes its field
type. -/
def Java.formatStr (extra : Extra) : Java → Nat → String
  | Java.primitive boxed prim, level =>
      if level > 0 then boxed else prim
  | Java.classJ package name path arguments, level =>
      (if package ≠ JAVA_LANG ∧ List.lookup name extra.imported ≠ some package ∧
          extra.package ≠ some package
       then package ++ SEP else "")
      ++ name ++ pathSuffix path
      ++ (if arguments.isEmpty then ""
          else "<" ++ Java.formatArgs extra arguments (level + 1) ++ ">")
  | Java.local_ name, _ => name
  | Java.optional _ field, level => Java.formatStr extra field level

/-- The comma-separated generic-argument list of `Custom::format`
(`java/mod.rs` lines 442-456), each argument formatted at the given
(already incremented) level. -/
def Java.formatArgs (extra : Extra) : List Java → Nat → String
  | [], _ => ""
  | [a], level => Java.formatStr extra a level
  | a :: b :: rest, level =>
      Java.formatStr extra a level ++ ", " ++ Java.formatArgs extra (b :: rest) level

end

/-- One character of `Custom::quote_string` for `Java` (`java/mod.rs`
lines 472-483): the escape table of the `match` in source order. -/
def Java.escapeChar (c : Char) : String :=
  if c = Char.ofNat 9 then "\\t"
  else if c = Char.ofNat 7 then "\\b"
  else if c = Char.ofNat 10 then "\\n"
  else if c = Char.ofNat 13 then "\\r"
  else if c = Char.ofNat 20 then "\\f"
  else if c = Char.ofNat 39 then "\\" ++ String.singleton (Char.ofNat 39)
  else if c = Char.ofNat 34 then "\\\""
  else if c = Char.ofNat 92 then "\\\\"
  else String.singleton c

/-- `Custom::quote_string` for `Java` (`java/mod.rs` lines 469-489): an
opening double quote, every input character through the escape table,
and a closing double quote. -/
def Java.quote_string (input : String) : String :=
  "\"" ++ String.join (input.data.map Java.escapeChar) ++ "\""

/-- One character of `Custom::quote_string` for `Swift` (`swift/mod.rs`
lines 184-193): as Java's table but without the `\b` and `\f` rows. -/
def Swift.escapeChar (c : Char) : String :=
  if c = Char.ofNat 9 then "\\t"
  else if c = Char.ofNat 10 then "\\n"
  else if c = Char.ofNat 13 then "\\r"
  else if c = Char.ofNat 39 then "\\" ++ String.singleton (Char.ofNat 39)
  else if c = Char.ofNat 34 then "\\\""
  else if c = Char.ofNat 92 then "\\\\"
  else String.singleton c

/-- `Custom::quote_string` for `Swift` (`swift/mod.rs` lines 181-198). -/
def Swift.quote_string (input : String) : String :=
  "\"" ++ String.join (input.data.map Swift.escapeChar) ++ "\""

/-! ## Import collation (`Java::imports`, `java/mod.rs` lines 188-236)

The `BTreeSet<(&str, &str)>` of modules is modelled as a strictly
increasing association-free list under the lexicographic order on
`(package, name)` pairs of strings, with `insertPair` playing the role of
`BTreeSet::insert`. -/

/-- The strict lexicographic order on `(package, name)` pairs, as used by
`BTreeSet<(&str, &str)>`. -/
def pairLt (a b : String × String) : Prop :=
  a.1 < b.1 ∨ (a.1 = b.1 ∧ a.2 < b.2)

instance : DecidableRel (pairLt) := fun a b => by
  unfold pairLt; infer_instance

/-- `BTreeSet::insert`: place the pair at its sorted position, keeping
the list duplicate-free. -/
def insertPair (x : String × String) : List (String × String) → List (String × String)
  | [] => [x]
  | y :: rest =>
      if pairLt x y then x :: y :: rest
      else if x = y then y :: rest
      else y :: insertPair x rest

mutual

/-- `Java::type_imports` (`java/mod.rs` lines 188-201): a class inserts
the pairs of its generic arguments (recursively, left to right) and then
its own `(package, name)` pair; every other variant contributes
nothing. -/
def Java.type_imports : Java → List (String × String) → List (String × String)
  | Java.classJ package name _ arguments, modules =>
      insertPair (package, name) (Java.typeImportsList arguments modules)
  | _, modules => modules

/-- The `for argument in &class.arguments` loop of `type_imports`. -/
def Java.typeImportsList : List Java → List (String × String) → List (String × String)
  | [], modules => modules
  | a :: rest, modules => Java.typeImportsList rest (Java.type_imports a modules)

end

mutual

/-- The structural multiset of `(package, name)` pairs a `Java` item
feeds into the module set, in insertion order: argument pairs first, then
the class's own pair. -/
def Java.pairsOf : Java → List (String × String)
  | Java.classJ package name _ arguments => Java.pairsOfList arguments ++ [(package, name)]
  | _ => []

/-- The pairs of a list of `Java` items, in order. -/
def Java.pairsOfList : List Java → List (String × String)
  | [] => []
  | a :: rest => Java.pairsOf a ++ Java.pairsOfList rest

end

/-- The `for custom in tokens.walk_custom()` loop of `Java::imports`
(`java/mod.rs` lines 208-210): fold `type_imports` over the walked
customs, starting from the empty module set. -/
def Java.collectModules (customs : List Java) : List (String × String) :=
  customs.foldl (fun modules c => Java.type_imports c modules) []

/-- The emission loop of `Java::imports` (`java/mod.rs` lines 218-233):
walk the sorted module set; skip a pair whose name is already a key of
`imported`, whose package is `java.lang`, or whose package equals the
file's package; otherwise emit the pair and record `name → package` in
`imported`.  Returns the emitted pairs in order and the final map. -/
def Java.importsLoop (filePackage : Option String) :
    List (String × String) → List (String × String) →
    List (String × String) × List (String × String)
  | [], imp => ([], imp)
  | (package, name) :: rest, imp =>
      if (List.lookup name imp).isSome then Java.importsLoop filePackage rest imp
      else if package = JAVA_LANG then Java.importsLoop filePackage rest imp
      else if filePackage = some package then Java.importsLoop filePackage rest imp
      else
        let r := Java.importsLoop filePackage rest ((name, package) :: imp)
        ((package, name) :: r.1, r.2)

/-- The token line `toks!("import ", package, SEP, name, ";")` pushed for
one emitted pair (`java/mod.rs` line 231). -/
def Java.importLine (p : String × String) : Element Java :=
  Element.push [Element.lit "import ", Element.lit p.1, Element.lit SEP,
    Element.lit p.2, Element.lit ";"]

/-- `Java::imports` (`java/mod.rs` lines 203-236): collect the module set
from the walked customs; `None` if it is empty, otherwise the import
lines of the pairs the loop keeps, together with the updated `Extra`. -/
def Java.imports (tokens : Tokens Java) (extra : Extra) :
    Option (Tokens Java) × Extra :=
  let modules := Java.collectModules tokens.walk_custom
  if modules.isEmpty then (Option.none, extra)
  else
    let r := Java.importsLoop extra.package modules extra.imported
    (some ⟨r.1.map Java.importLine⟩, { extra with imported := r.2 })

/-- `Custom::write_file` for `Java` (`java/mod.rs` lines 491-509): an
optional `package …;` line, the import block, and the body, each pushed
and joined with line spacing, rendered with the post-collation `Extra`
(rendering itself is modelled from the spec, see `renderList`). -/
def Java.write_file (tokens : Tokens Java) (extra : Extra) (level : Nat) :
    String × Extra :=
  let pkgToks : List (Element Java) :=
    match extra.package with
    | some p => [Element.push [Element.lit "package ", Element.lit p, Element.lit ";"]]
    | Option.none => []
  let r := Java.imports tokens extra
  let impToks : List (Element Java) :=
    match r.1 with
    | some t => [Element.push t.elements]
    | Option.none => []
  let toks : Tokens Java := ⟨pkgToks ++ impToks ++ [Element.push tokens.elements]⟩
  let joined := toks.join_line_spacing
  ((renderList (fun c lvl => Java.formatStr r.2 c lvl) joined.elements level initFmt).out,
   r.2)

/-- Modelled from the spec: the import-emission policy in the words of
the corrected claim — walking the sorted module set, a pair is emitted
iff its name has not already been marked imported (by the initial map or
by an earlier emitted pair, regardless of namespace), its package is not
the builtin `java.lang`, and its package is not the file's package. -/
def keptByPolicy (filePackage : Option String) (seen : List String) :
    List (String × String) → List (String × String)
  | [] => []
  | (package, name) :: rest =>
      if name ∈ seen ∨ package = JAVA_LANG ∨ filePackage = some package then
        keptByPolicy filePackage seen rest
      else
        (package, name) :: keptByPolicy filePackage (name :: seen) rest

/-! ## Helper lemmas -/

theorem joinTail_intersperse (e first : Element C) (l : List (Element C)) :
    first :: Tokens.joinTail e l = List.intersperse e (first :: l) := by
  induction l generalizing first with
  | nil => rfl
  | cons n rest ih => rw [Tokens.joinTail, List.intersperse_cons_cons, ← ih n]

theorem joinTail_length (e : Element C) (l : List (Element C)) :
    (Tokens.joinTail e l).length = 2 * l.length := by
  induction l with
  | nil => rfl
  | cons n rest ih => simp [Tokens.joinTail, ih]; omega

/-! ## Claims -/

/-- C3 counterexample: the claim asserts the no-stored-`None` invariant is
maintained by every container operation, but `Tokens::extend` appends its
elements verbatim: extending an empty container with `[Element::None]`
stores the `None`, flips `is_empty`, and leaves a non-meaningful element
in the stream. -/
theorem claim_C3_counterexample :
    (Tokens.extend (Tokens.new (C := Unit)) [Element.none]).elements = [Element.none]
    ∧ (Tokens.extend (Tokens.new (C := Unit)) [Element.none]).is_empty = false
    ∧ ((Tokens.extend (Tokens.new (C := Unit)) [Element.none]).elements.all
        (fun e => !e.isNoneEl)) = false :=
  ⟨rfl, rfl, rfl⟩

/-- C3 (amended): `Tokens::append` discards an element equal to
`Element::None` at insertion time — the element sequence, `is_empty`, and
the rendered output are all unchanged — but `Tokens::extend` appends its
iterator verbatim without filtering, so the no-stored-`None` property is
not maintained by every container operation. -/
theorem claim_C3_append_none (C : Type) (t : Tokens C) (fc : C → Nat → String)
    (l : List (Element C)) :
    t.append Element.none = t
    ∧ (t.append Element.none).is_empty = t.is_empty
    ∧ Tokens.to_string_with fc (t.append Element.none) = Tokens.to_string_with fc t
    ∧ (t.extend l).elements = t.elements ++ l := by
  have h : t.append Element.none = t := by
    simp [Tokens.append, Element.isNoneEl]
  exact ⟨h, by rw [h], by rw [h], rfl⟩

/-- C4: a failing builder closure leaves the parent of `try_push_into` /
`try_nested_into` untouched and propagates the error; a succeeding one
appends the built sub-tree wrapped in `Push` / `Nested`. -/
theorem claim_C4_try_builders (C E : Type) (t : Tokens C)
    (builder : Tokens C → Tokens C × Option E) :
    (∀ sub e, builder Tokens.new = (sub, some e) →
      t.try_push_into builder = (t, some e)
      ∧ t.try_nested_into builder = (t, some e))
    ∧ (∀ sub, builder Tokens.new = (sub, Option.none) →
      t.try_push_into builder = (t.push sub, Option.none)
      ∧ t.try_nested_into builder = (t.nested sub, Option.none)) := by
  constructor
  · intro sub e h
    constructor <;> simp [Tokens.try_push_into, Tokens.try_nested_into, h]
  · intro sub h
    constructor <;> simp [Tokens.try_push_into, Tokens.try_nested_into, h]

/-- C4 witness: a concrete failing and a concrete succeeding builder. -/
theorem claim_C4_witness :
    Tokens.try_push_into (C := Unit) (E := Nat) Tokens.new
      (fun _ => (Tokens.new, some 7)) = (Tokens.new, some 7)
    ∧ Tokens.try_nested_into (C := Unit) (E := Nat) Tokens.new
      (fun _ => (⟨[Element.lit "x"]⟩, Option.none)) =
        (Tokens.nested Tokens.new ⟨[Element.lit "x"]⟩, Option.none) :=
  ⟨((claim_C4_try_builders Unit Nat Tokens.new
      (fun _ => (Tokens.new, some 7))).1 Tokens.new 7 rfl).1,
   ((claim_C4_try_builders Unit Nat Tokens.new
      (fun _ => (⟨[Element.lit "x"]⟩, Option.none))).2 ⟨[Element.lit "x"]⟩ rfl).2⟩

/-- C6: `join` discards `None` elements and interleaves one clone of the
separator strictly between consecutive survivors, so zero or one
remaining elements are returned unchanged with no separator, and `n > 1`
remaining elements give exactly `n - 1` separator copies (length
`2n - 1`). -/
theorem claim_C6_join (C : Type) (ts : Tokens C) (e : Element C) :
    (ts.join e).elements =
      List.intersperse e (ts.elements.filter (fun x => !x.isNoneEl))
    ∧ (ts.join e).elements.length =
      (if (ts.elements.filter (fun x => !x.isNoneEl)).length = 0 then 0
       else 2 * (ts.elements.filter (fun x => !x.isNoneEl)).length - 1) := by
  constructor
  · cases hf : ts.elements.filter (fun x => !x.isNoneEl) with
    | nil => simp [Tokens.join, hf]
    | cons first rest => simp [Tokens.join, hf, joinTail_intersperse]
  · cases hf : ts.elements.filter (fun x => !x.isNoneEl) with
    | nil => simp [Tokens.join, hf]
    | cons first rest =>
        simp [Tokens.join, hf, joinTail_length]
        omega

/-- C7: in mid-stream state (some text already emitted, no pending
whitespace), a `Push(subtree)` immediately after a literal — with no
explicit `Space` between them — places the subtree's literal at the start
of a new line at the current indentation; concretely, two consecutive
pushes of literal text render on two separate lines. -/
theorem claim_C7_push_newline :
    (∀ (C : Type) (fc : C → Nat → String) (level : Nat) (s : FmtState) (a b : String),
      s.initialized = true → s.spacePending = false → s.linePending = false →
      s.blankPending = false → a ≠ "" → b ≠ "" →
      (renderList fc [Element.lit a, Element.push [Element.lit b]] level s).out =
        s.out ++ a ++ "\n" ++ indentStr s.indent ++ b)
    ∧ Tokens.to_string_with (fun (_ : Unit) _ => "")
        ⟨[Element.push [Element.lit "foo"], Element.push [Element.lit "bar"]]⟩ =
        "foo\nbar" := by
  constructor
  · intro C fc level s a b hinit hsp hlp hbp ha hb
    obtain ⟨out, indent, sp, lp, bp, init⟩ := s
    simp only at hinit hsp hlp hbp
    subst hinit hsp hlp hbp
    simp [renderList, renderEl, FmtState.emit, ha, hb, String.append_assoc]
  · simp [Tokens.to_string_with, renderList, renderEl, FmtState.emit, initFmt, indentStr]
    decide

/-- C7 witness: the mid-stream case at a concrete state with one level
of indentation. -/
theorem claim_C7_witness :
    (renderList (fun (_ : Unit) _ => "") [Element.lit "y", Element.push [Element.lit "z"]]
      0 ⟨"x", 1, false, false, false, true⟩).out =
      "x" ++ "y" ++ "\n" ++ indentStr 1 ++ "z" :=
  claim_C7_push_newline.1 Unit (fun _ _ => "") 0 ⟨"x", 1, false, false, false, true⟩
    "y" "z" rfl rfl rfl rfl (by decide) (by decide)

/-- C9: for any input containing a newline and a double quote, both the
Java and the Swift `quote_string` write an opening double quote, the
input with each character through the escape table — newline to `\n`,
double quote to `\"`, and likewise tab, carriage return and backslash —
and a closing double quote; concretely on `a`, newline, quote, `b`. -/
theorem claim_C9_quote_string (s : String)
    (h1 : Char.ofNat 10 ∈ s.data) (h2 : Char.ofNat 34 ∈ s.data) :
    Java.quote_string s = "\"" ++ String.join (s.data.map Java.escapeChar) ++ "\""
    ∧ Swift.quote_string s = "\"" ++ String.join (s.data.map Swift.escapeChar) ++ "\""
    ∧ Java.escapeChar (Char.ofNat 10) = "\\n"
    ∧ Java.escapeChar (Char.ofNat 34) = "\\\""
    ∧ Java.escapeChar (Char.ofNat 9) = "\\t"
    ∧ Java.escapeChar (Char.ofNat 13) = "\\r"
    ∧ Java.escapeChar (Char.ofNat 92) = "\\\\"
    ∧ Swift.escapeChar (Char.ofNat 10) = "\\n"
    ∧ Swift.escapeChar (Char.ofNat 34) = "\\\""
    ∧ Swift.escapeChar (Char.ofNat 9) = "\\t"
    ∧ Swift.escapeChar (Char.ofNat 13) = "\\r"
    ∧ Swift.escapeChar (Char.ofNat 92) = "\\\\"
    ∧ Java.quote_string "a\n\"b" = "\"a\\n\\\"b\""
    ∧ Swift.quote_string "a\n\"b" = "\"a\\n\\\"b\"" := by
  refine ⟨rfl, rfl, ?_, ?_, ?_, ?_, ?_, ?_, ?_, ?_, ?_, ?_, ?_, ?_⟩ <;> decide

theorem lcustoms_append (l1 l2 : List (Element C)) :
    lcustoms (l1 ++ l2) = lcustoms l1 ++ lcustoms l2 := by
  induction l1 with
  | nil => simp [lcustoms]
  | cons e rest ih => simp [lcustoms, ih]

/-- The queue-based walk yields, up to order, exactly the customs
structurally reachable from the queue's elements. -/
theorem walkQueue_perm : ∀ (q : List (Element C)), (walkQueue q).Perm (lcustoms q)
  | [] => by simp [walkQueue, lcustoms]
  | (Element.rcE inner) :: rest => by
      have ih := walkQueue_perm (rest ++ [inner])
      rw [lcustoms_append] at ih
      simp only [walkQueue, lcustoms, ecustoms, List.append_nil] at ih ⊢
      exact ih.trans List.perm_append_comm
  | (Element.borrowedE inner) :: rest => by
      have ih := walkQueue_perm (rest ++ [inner])
      rw [lcustoms_append] at ih
      simp only [walkQueue, lcustoms, ecustoms, List.append_nil] at ih ⊢
      exact ih.trans List.perm_append_comm
  | (Element.push ts) :: rest => by
      have ih := walkQueue_perm (rest ++ ts)
      rw [lcustoms_append] at ih
      simp only [walkQueue, lcustoms, ecustoms] at ih ⊢
      exact ih.trans List.perm_append_comm
  | (Element.nested ts) :: rest => by
      have ih := walkQueue_perm (rest ++ ts)
      rw [lcustoms_append] at ih
      simp only [walkQueue, lcustoms, ecustoms] at ih ⊢
      exact ih.trans List.perm_append_comm
  | (Element.appendT ts) :: rest => by
      have ih := walkQueue_perm (rest ++ ts)
      rw [lcustoms_append] at ih
      simp only [walkQueue, lcustoms, ecustoms] at ih ⊢
      exact ih.trans List.perm_append_comm
  | (Element.custom c) :: rest => by
      have ih := walkQueue_perm rest
      simp only [walkQueue, lcustoms, ecustoms, List.singleton_append]
      exact ih.cons c
  | (Element.registered c) :: rest => by
      have ih := walkQueue_perm rest
      simp only [walkQueue, lcustoms, ecustoms, List.singleton_append]
      exact ih.cons c
  | (Element.lit t) :: rest => by
      have ih := walkQueue_perm rest
      simpa only [walkQueue, lcustoms, ecustoms, List.nil_append] using ih
  | Element.spacing :: rest => by
      have ih := walkQueue_perm rest
      simpa only [walkQueue, lcustoms, ecustoms, List.nil_append] using ih
  | Element.pushSpacing :: rest => by
      have ih := walkQueue_perm rest
      simpa only [walkQueue, lcustoms, ecustoms, List.nil_append] using ih
  | Element.lineSpacing :: rest => by
      have ih := walkQueue_perm rest
      simpa only [walkQueue, lcustoms, ecustoms, List.nil_append] using ih
  | Element.none :: rest => by
      have ih := walkQueue_perm rest
      simpa only [walkQueue, lcustoms, ecustoms, List.nil_append] using ih
termination_by q => ((q.map sizeOf).sum, q.length)
decreasing_by
  all_goals
    simp only [Prod.lex_iff, List.map_append, List.sum_append, List.map_cons, List.sum_cons,
      List.map_nil, List.sum_nil, List.length_cons, List.length_append, List.length_nil,
      Element.lit.sizeOf_spec, Element.custom.sizeOf_spec, Element.registered.sizeOf_spec,
      Element.appendT.sizeOf_spec, Element.push.sizeOf_spec, Element.nested.sizeOf_spec,
      Element.spacing.sizeOf_spec, Element.pushSpacing.sizeOf_spec,
      Element.lineSpacing.sizeOf_spec, Element.none.sizeOf_spec, Element.rcE.sizeOf_spec,
      Element.borrowedE.sizeOf_spec]
  all_goals first
    | (have hsz := sum_map_sizeOf_lt (α := Element C) ts; omega)
    | omega

/-- C5: `walk_custom` yields, up to order, exactly the `Custom` and
`Registered` items structurally reachable through `Push`/`Nested`/
`Append`/shared/borrowed wrappers (so every reachable item is yielded and
the traversal is finite — it is a total function into a list); each call
rebuilds the queue from the full tree, so membership is determined by the
tree alone, and `register` contributes its item to the walk. -/
theorem claim_C5_walk_custom (C : Type) (ts : Tokens C) :
    (Tokens.walk_custom ts).Perm (lcustoms ts.elements)
    ∧ (∀ c, c ∈ Tokens.walk_custom ts ↔ c ∈ lcustoms ts.elements)
    ∧ (∀ c, (Tokens.register ts c).walk_custom.Perm (lcustoms ts.elements ++ [c])) := by
  refine ⟨walkQueue_perm ts.elements, fun c => (walkQueue_perm ts.elements).mem_iff, fun c => ?_⟩
  have h := walkQueue_perm (C := C) (ts.elements ++ [Element.registered c])
  rw [lcustoms_append] at h
  simpa only [Tokens.register, Tokens.walk_custom, lcustoms, ecustoms,
    List.append_nil] using h

/-- C9 witness: the input `a`, newline, double quote, `b`. -/
theorem claim_C9_witness :
    Java.quote_string "a\n\"b" =
      "\"" ++ String.join ("a\n\"b".data.map Java.escapeChar) ++ "\"" :=
  (claim_C9_quote_string "a\n\"b" (by decide) (by decide)).1

/-! ## Order lemmas for the module set -/

theorem pairLt_irrefl (a : String × String) : ¬ pairLt a a := by
  simp [pairLt]

theorem pairLt_trans {a b c : String × String} (h1 : pairLt a b) (h2 : pairLt b c) :
    pairLt a c := by
  rcases h1 with h1 | ⟨e1, h1⟩ <;> rcases h2 with h2 | ⟨e2, h2⟩
  · exact Or.inl (lt_trans h1 h2)
  · exact Or.inl (by rw [← e2]; exact h1)
  · exact Or.inl (by rw [e1]; exact h2)
  · exact Or.inr ⟨e1.trans e2, lt_trans h1 h2⟩

instance : IsAntisymm (String × String) pairLt :=
  ⟨fun a _ h1 h2 => absurd (pairLt_trans h1 h2) (pairLt_irrefl a)⟩

theorem pairLt_of_not {x y : String × String} (h1 : ¬ pairLt x y) (h2 : ¬ x = y) :
    pairLt y x := by
  rcases lt_trichotomy x.1 y.1 with h | h | h
  · exact absurd (Or.inl h) h1
  · rcases lt_trichotomy x.2 y.2 with g | g | g
    · exact absurd (Or.inr ⟨h, g⟩) h1
    · exact absurd (Prod.ext h g) h2
    · exact Or.inr ⟨h.symm, g⟩
  · exact Or.inl h

theorem pairLt_ne {a b : String × String} (h : pairLt a b) : a ≠ b :=
  fun e => pairLt_irrefl b (e ▸ h)

theorem insertPair_mem (x z : String × String) (l : List (String × String)) :
    z ∈ insertPair x l ↔ z = x ∨ z ∈ l := by
  induction l with
  | nil => simp [insertPair]
  | cons y rest ih =>
      simp only [insertPair]
      split_ifs with h1 h2
      · simp [List.mem_cons]
      · subst h2; simp [List.mem_cons]
      · simp [List.mem_cons, ih]; tauto

theorem insertPair_sorted (x : String × String) (l : List (String × String))
    (h : l.Pairwise pairLt) : (insertPair x l).Pairwise pairLt := by
  induction l with
  | nil => simp [insertPair]
  | cons y rest ih =>
      obtain ⟨hy, hrest⟩ := List.pairwise_cons.mp h
      simp only [insertPair]
      split_ifs with h1 h2
      · refine List.pairwise_cons.mpr ⟨?_, h⟩
        intro z hz
        rcases List.mem_cons.mp hz with rfl | hz
        · exact h1
        · exact pairLt_trans h1 (hy z hz)
      · exact h
      · refine List.pairwise_cons.mpr ⟨?_, ih hrest⟩
        intro z hz
        rcases (insertPair_mem x z rest).mp hz with rfl | hz
        · exact pairLt_of_not h1 h2
        · exact hy z hz

theorem foldl_insertPair_sorted (xs : List (String × String))
    (m : List (String × String)) (hm : m.Pairwise pairLt) :
    (xs.foldl (fun m p => insertPair p m) m).Pairwise pairLt := by
  induction xs generalizing m with
  | nil => exact hm
  | cons x rest ih => exact ih (insertPair x m) (insertPair_sorted x m hm)

theorem foldl_insertPair_mem (xs : List (String × String))
    (m : List (String × String)) (z : String × String) :
    z ∈ xs.foldl (fun m p => insertPair p m) m ↔ z ∈ m ∨ z ∈ xs := by
  induction xs generalizing m with
  | nil => simp
  | cons x rest ih =>
      simp only [List.foldl_cons, ih, insertPair_mem, List.mem_cons]
      tauto

theorem sorted_pairLt_nodup (l : List (String × String)) (h : l.Pairwise pairLt) :
    l.Nodup :=
  h.imp pairLt_ne

theorem foldl_insertPair_perm_eq (xs ys : List (String × String)) (h : xs.Perm ys) :
    xs.foldl (fun m p => insertPair p m) [] = ys.foldl (fun m p => insertPair p m) [] := by
  have s1 := foldl_insertPair_sorted xs [] (by simp)
  have s2 := foldl_insertPair_sorted ys [] (by simp)
  refine List.eq_of_perm_of_sorted ?_ s1 s2
  refine (List.perm_ext_iff_of_nodup (sorted_pairLt_nodup _ s1) (sorted_pairLt_nodup _ s2)).mpr
    fun a => ?_
  simp [foldl_insertPair_mem, h.mem_iff]

mutual

theorem type_imports_eq (j : Java) :
    ∀ m, Java.type_imports j m = (Java.pairsOf j).foldl (fun m p => insertPair p m) m := by
  match j with
  | Java.classJ p n path args =>
      intro m
      rw [Java.type_imports, Java.pairsOf, List.foldl_append,
        typeImportsList_eq args m]
      rfl
  | Java.primitive b pr => intro m; rfl
  | Java.local_ n => intro m; rfl
  | Java.optional v f => intro m; rfl

theorem typeImportsList_eq (l : List Java) :
    ∀ m, Java.typeImportsList l m = (Java.pairsOfList l).foldl (fun m p => insertPair p m) m := by
  match l with
  | [] => intro m; rfl
  | a :: rest =>
      intro m
      rw [Java.typeImportsList, Java.pairsOfList, List.foldl_append,
        type_imports_eq a m, typeImportsList_eq rest]

end

theorem collectModules_eq (cs : List Java) :
    Java.collectModules cs =
      (cs.flatMap Java.pairsOf).foldl (fun m p => insertPair p m) [] := by
  suffices h : ∀ m, cs.foldl (fun modules c => Java.type_imports c modules) m =
      (cs.flatMap Java.pairsOf).foldl (fun m p => insertPair p m) m from h []
  induction cs with
  | nil => intro m; rfl
  | cons a rest ih =>
      intro m
      rw [List.foldl_cons, List.flatMap_cons, List.foldl_append, type_imports_eq a m, ih]

theorem collectModules_perm {cs1 cs2 : List Java} (h : cs1.Perm cs2) :
    Java.collectModules cs1 = Java.collectModules cs2 := by
  rw [collectModules_eq, collectModules_eq]
  exact foldl_insertPair_perm_eq _ _ (h.flatMap_right _)

theorem collectModules_sorted (cs : List Java) :
    (Java.collectModules cs).Pairwise pairLt := by
  rw [collectModules_eq]
  exact foldl_insertPair_sorted _ _ (by simp)

theorem lcustoms_eq_flatMap (es : List (Element C)) :
    lcustoms es = es.flatMap ecustoms := by
  induction es with
  | nil => rfl
  | cons e rest ih => rw [lcustoms, ih, List.flatMap_cons]

theorem walk_custom_perm_of_perm {es1 es2 : List (Element C)} (h : es1.Perm es2) :
    (Tokens.walk_custom ⟨es1⟩).Perm (Tokens.walk_custom ⟨es2⟩) := by
  have hmid : (lcustoms es1).Perm (lcustoms es2) := by
    rw [lcustoms_eq_flatMap, lcustoms_eq_flatMap]
    exact h.flatMap_right _
  exact (walkQueue_perm es1).trans (hmid.trans (walkQueue_perm es2).symm)

theorem importsLoop_sublist (filePackage : Option String)
    (ms imp : List (String × String)) :
    (Java.importsLoop filePackage ms imp).1.Sublist ms := by
  induction ms generalizing imp with
  | nil => simp [Java.importsLoop]
  | cons pn rest ih =>
      obtain ⟨p, n⟩ := pn
      simp only [Java.importsLoop]
      split_ifs with h1 h2 h3
      · exact (ih imp).cons _
      · exact (ih imp).cons _
      · exact (ih imp).cons _
      · exact (ih ((n, p) :: imp)).cons₂ _

theorem lookup_isSome_iff (n : String) (l : List (String × String)) :
    (List.lookup n l).isSome = true ↔ n ∈ l.map Prod.fst := by
  induction l with
  | nil => simp
  | cons kv rest ih =>
      obtain ⟨k, v⟩ := kv
      by_cases h : n = k
      · subst h; simp [List.lookup]
      · have hb : (n == k) = false := by simp [h]
        simp only [List.lookup, hb, List.map_cons, List.mem_cons]
        rw [ih]
        tauto

theorem importsLoop_eq_keptByPolicy (filePackage : Option String)
    (ms imp : List (String × String)) :
    (Java.importsLoop filePackage ms imp).1 =
      keptByPolicy filePackage (imp.map Prod.fst) ms := by
  induction ms generalizing imp with
  | nil => rfl
  | cons pn rest ih =>
      obtain ⟨p, n⟩ := pn
      simp only [Java.importsLoop, keptByPolicy]
      by_cases h1 : (List.lookup n imp).isSome = true
      · have hmem : n ∈ imp.map Prod.fst := (lookup_isSome_iff n imp).mp h1
        rw [if_pos h1, if_pos (Or.inl hmem), ih]
      · have hmem : n ∉ imp.map Prod.fst := fun hm => h1 ((lookup_isSome_iff n imp).mpr hm)
        rw [if_neg h1]
        by_cases h2 : p = JAVA_LANG
        · rw [if_pos h2, if_pos (Or.inr (Or.inl h2)), ih]
        · rw [if_neg h2]
          by_cases h3 : filePackage = some p
          · rw [if_pos h3, if_pos (Or.inr (Or.inr h3)), ih]
          · rw [if_neg h3,
              if_neg (show ¬(n ∈ imp.map Prod.fst ∨ p = JAVA_LANG ∨ filePackage = some p) by
                tauto)]
            show (p, n) :: (Java.importsLoop filePackage rest ((n, p) :: imp)).1 =
              (p, n) :: keptByPolicy filePackage (n :: imp.map Prod.fst) rest
            rw [ih ((n, p) :: imp)]
            rfl

/-- C1 counterexample: two distinct classes named `N` from the different
packages `a.x` and `b.y` (neither `java.lang` nor the file's package,
which is absent): only the first, `import a.x.N;`, is emitted — the
second pair is in the module set but not in the emitted list, because
`Java::imports` suppresses by name alone (`extra.imported.contains_key`),
contradicting the claim that the later distinct item's import line is
still emitted. -/
theorem claim_C1_counterexample :
    (Java.imports
        ⟨[Element.custom (imported "a.x" "N"), Element.custom (imported "b.y" "N")]⟩
        ⟨Option.none, []⟩).1 = some ⟨[Java.importLine ("a.x", "N")]⟩
    ∧ ("b.y", "N") ∈ Java.collectModules
        (Tokens.walk_custom
          ⟨[Element.custom (imported "a.x" "N"), Element.custom (imported "b.y" "N")]⟩)
    ∧ ("b.y" : String) ≠ "a.x" ∧ ("b.y" : String) ≠ JAVA_LANG
    ∧ ("b.y", "N") ∉ (Java.importsLoop Option.none
        (Java.collectModules
          (Tokens.walk_custom
            ⟨[Element.custom (imported "a.x" "N"), Element.custom (imported "b.y" "N")]⟩))
        []).1 := by
  have hw : Tokens.walk_custom
      (⟨[Element.custom (imported "a.x" "N"), Element.custom (imported "b.y" "N")]⟩ :
        Tokens Java) = [imported "a.x" "N", imported "b.y" "N"] := by
    simp [Tokens.walk_custom, walkQueue]
  have hm : Java.collectModules
      (Tokens.walk_custom
        (⟨[Element.custom (imported "a.x" "N"), Element.custom (imported "b.y" "N")]⟩ :
          Tokens Java)) = [("a.x", "N"), ("b.y", "N")] := by
    rw [hw]
    simp +decide [Java.collectModules, Java.type_imports, Java.typeImportsList, imported,
      insertPair, pairLt]
  refine ⟨?_, ?_, by decide, by decide, ?_⟩
  · simp +decide [Java.imports, hm, Java.importsLoop, JAVA_LANG]
  · rw [hm]; simp
  · rw [hm]
    simp +decide [Java.importsLoop, JAVA_LANG]

/-- C1 (amended): once a name has been marked imported (whether from the
initial `imported` map or by an earlier emitted pair), any later pair
with the same name — even a distinct item from a different namespace —
is suppressed from the import block; besides this by-name suppression,
the policy skips only `java.lang` packages and the file's own package.
Concretely, of `a.x.N` and `b.y.N` only `import a.x.N;` is emitted. -/
theorem claim_C1_amended (filePackage : Option String)
    (imp modules : List (String × String)) :
    (Java.importsLoop filePackage modules imp).1 =
      keptByPolicy filePackage (imp.map Prod.fst) modules
    ∧ (Java.importsLoop Option.none [("a.x", "N"), ("b.y", "N")] []).1 = [("a.x", "N")] :=
  ⟨importsLoop_eq_keptByPolicy filePackage modules imp, by
    simp +decide [Java.importsLoop, JAVA_LANG]⟩

/-- C2: the emitted import block depends only on the multiset of tree
elements (insertion order never matters), its pairs are strictly sorted
by `(namespace, name)` — hence deduplicated — and the concrete `B.Y`/`A.X`
scenario emits `import A.X;` before `import B.Y;` under both insertion
orders, one line per pair. -/
theorem claim_C2_imports_sorted (extra : Extra) :
    (∀ (es1 es2 : List (Element Java)), es1.Perm es2 →
      Java.imports ⟨es1⟩ extra = Java.imports ⟨es2⟩ extra)
    ∧ (∀ (ts : Tokens Java),
      List.Pairwise pairLt
        (Java.importsLoop extra.package (Java.collectModules ts.walk_custom)
          extra.imported).1)
    ∧ (Java.imports
        ⟨[Element.custom (imported "B" "Y"), Element.custom (imported "A" "X")]⟩
        ⟨Option.none, []⟩).1 =
      some ⟨[Java.importLine ("A", "X"), Java.importLine ("B", "Y")]⟩
    ∧ (Java.imports
        ⟨[Element.custom (imported "A" "X"), Element.custom (imported "B" "Y")]⟩
        ⟨Option.none, []⟩).1 =
      some ⟨[Java.importLine ("A", "X"), Java.importLine ("B", "Y")]⟩ := by
  refine ⟨?_, ?_, ?_, ?_⟩
  · intro es1 es2 h
    have hc : Java.collectModules (Tokens.walk_custom ⟨es1⟩) =
        Java.collectModules (Tokens.walk_custom ⟨es2⟩) :=
      collectModules_perm (walk_custom_perm_of_perm h)
    simp only [Java.imports, hc]
  · intro ts
    exact List.Pairwise.sublist (importsLoop_sublist extra.package _ extra.imported)
      (collectModules_sorted _)
  · simp +decide [Java.imports, Tokens.walk_custom, walkQueue, Java.collectModules,
      Java.type_imports, Java.typeImportsList, imported, insertPair, pairLt,
      Java.importsLoop, JAVA_LANG]
  · simp +decide [Java.imports, Tokens.walk_custom, walkQueue, Java.collectModules,
      Java.type_imports, Java.typeImportsList, imported, insertPair, pairLt,
      Java.importsLoop, JAVA_LANG]

/-- C2 witness: the two insertion orders of the `B.Y`/`A.X` scenario are
permutations of one another, so their import collation results agree. -/
theorem claim_C2_witness :
    Java.imports
      ⟨[Element.custom (imported "B" "Y"), Element.custom (imported "A" "X")]⟩
      ⟨Option.none, []⟩ =
    Java.imports
      ⟨[Element.custom (imported "A" "X"), Element.custom (imported "B" "Y")]⟩
      ⟨Option.none, []⟩ :=
  (claim_C2_imports_sorted ⟨Option.none, []⟩).1 _ _
    (List.Perm.swap (Element.custom (imported "A" "X"))
      (Element.custom (imported "B" "Y")) [])

/-- C8: `Custom::format` for Java writes a primitive's boxed name at
nesting level above 0 and its unboxed name at level 0, and a class's
generic arguments are formatted at `level + 1` — so `int` as a generic
argument of `java.util.List` renders boxed as `Integer`, while at top
level it renders as `int`. -/
theorem claim_C8_level_boxing (extra : Extra) :
    (∀ boxed prim level,
      Java.formatStr extra (Java.primitive boxed prim) level =
        if 0 < level then boxed else prim)
    ∧ (∀ pkg name path a rest level,
      Java.formatStr extra (Java.classJ pkg name path (a :: rest)) level =
        (if pkg ≠ JAVA_LANG ∧ List.lookup name extra.imported ≠ some pkg ∧
            extra.package ≠ some pkg
         then pkg ++ SEP else "")
        ++ name ++ pathSuffix path
        ++ ("<" ++ Java.formatArgs extra (a :: rest) (level + 1) ++ ">"))
    ∧ Java.formatStr ⟨Option.none, []⟩ (Java.classJ "java.util" "List" [] [INTEGER]) 0 =
        "java.util.List<Integer>"
    ∧ Java.formatStr ⟨Option.none, []⟩ INTEGER 0 = "int"
    ∧ Java.formatStr ⟨Option.none, []⟩ INTEGER 1 = "Integer" := by
  refine ⟨fun boxed prim level => ?_, fun pkg name path a rest level => ?_, ?_, ?_, ?_⟩
  · simp [Java.formatStr]
  · simp [Java.formatStr]
  · simp +decide [Java.formatStr, Java.formatArgs, INTEGER, JAVA_LANG, SEP, pathSuffix]
  · simp [Java.formatStr, INTEGER]
  · simp [Java.formatStr, INTEGER]

/-- C10: formatting a class inline qualifies the name with `package.`
except exactly when the package is `java.lang`, or equals the file's
declared package, or the class's name is recorded in `Extra.imported` as
imported from that same package; in particular a class whose import was
suppressed by a name collision (name recorded for a different package)
still renders fully qualified. -/
theorem claim_C10_qualified (extra : Extra) (pkg name : String) (path : List String)
    (args : List Java) (level : Nat) :
    Java.formatStr extra (Java.classJ pkg name path args) level =
      (if pkg = JAVA_LANG ∨ extra.package = some pkg ∨
          List.lookup name extra.imported = some pkg
       then "" else pkg ++ SEP)
      ++ name ++ pathSuffix path
      ++ (if args.isEmpty then ""
          else "<" ++ Java.formatArgs extra args (level + 1) ++ ">")
    ∧ Java.formatStr ⟨Option.none, [("N", "a.x")]⟩ (Java.classJ "b.y" "N" [] []) 0 = "b.y.N"
    ∧ Java.formatStr ⟨Option.none, [("N", "a.x")]⟩ (Java.classJ "a.x" "N" [] []) 0 = "N"
    ∧ Java.formatStr ⟨some "p.q", []⟩ (Java.classJ "p.q" "C" [] []) 0 = "C"
    ∧ Java.formatStr ⟨Option.none, []⟩ (Java.classJ "java.lang" "Integer" [] []) 0 =
        "Integer" := by
  refine ⟨?_, ?_, ?_, ?_, ?_⟩
  · simp only [Java.formatStr]
    split_ifs with h1 h2 <;> first | rfl | tauto
  · simp +decide [Java.formatStr, JAVA_LANG, SEP, pathSuffix]
  · simp +decide [Java.formatStr, JAVA_LANG, SEP, pathSuffix]
  · simp +decide [Java.formatStr, JAVA_LANG, SEP, pathSuffix]
  · simp +decide [Java.formatStr, JAVA_LANG, SEP, pathSuffix]

/-! ## Cross-validation of the embedding against in-repository tests -/

/-- The `test_imported` scenario of `java/mod.rs` (lines 562-576): the
embedded `write_file` reproduces the body the test expects (the test's
final trailing newline is added by the missing `io.rs` layer, outside
this model). -/
theorem write_file_test_imported :
    (Java.write_file
      (Tokens.join_spacing ⟨[Element.custom (imported "java.lang" "Integer"),
        Element.custom (imported "java.io" "A"),
        Element.custom (imported "java.io" "B"),
        Element.custom (imported "java.util" "B"),
        Element.custom (Java.classJ "java.util" "B" [] [imported "java.io" "A"])]⟩)
      ⟨Option.none, []⟩ 0).1 =
    "import java.io.A;\nimport java.io.B;\n\nInteger A B java.util.B java.util.B<A>" := by
  simp +decide [Java.write_file, Java.imports, Tokens.join_spacing, Tokens.join,
    Tokens.joinTail, Element.isNoneEl, Tokens.walk_custom, walkQueue, Java.collectModules,
    Java.type_imports, Java.typeImportsList, imported, insertPair, pairLt,
    Java.importsLoop, JAVA_LANG, SEP, Java.importLine, Tokens.join_line_spacing,
    renderList, renderEl, FmtState.emit, initFmt, indentStr, Java.formatStr,
    Java.formatArgs, pathSuffix]

/-- The nested-indentation scenario of the spec (section 8): indentation
raised inside `Nested` unwinds for the trailing sibling. -/
theorem render_nested_scenario :
    Tokens.to_string_with (fun (_ : Unit) _ => "")
      ⟨[Element.push [Element.lit "x"],
        Element.nested [Element.push [Element.lit "a"], Element.push [Element.lit "b"]],
        Element.push [Element.lit "y"]]⟩ = "x\n  a\n  b\ny" := by
  simp [Tokens.to_string_with, renderList, renderEl, FmtState.emit, initFmt, indentStr]
  decide

end Rsgen
